import Mathlib

/-!
Verification of the dedup-snapshotter storage core.

Shallow embedding conventions:
* Go byte slices are `List Nat` (each element a byte value);
* Go strings are `Str := List Char`;
* Go `int`/`int64` and SQLite `INTEGER` columns are `Int`;
* 32-bit words inside SHA-256 are `Nat` reduced `% 4294967296` wherever
  the Go code relies on `uint32` wrap-around;
* SQLite tables are lists of row structures, filesystem directories are
  lists of the file names they contain, and each stateful Go method is a
  pure function from state to state.
-/

abbrev Str := List Char

/-! ### SHA-256 (crypto/sha256) and hex encoding (encoding/hex)

A direct embedding of the SHA-256 algorithm used through
`sha256.Sum256` / `sha256.New`: padding, 64-word message schedule and the
64-round compression, all on `Nat` with explicit reduction modulo `2^32`.
-/

def w32 : Nat := 4294967296

def rotr32 (x n : Nat) : Nat := ((x >>> n) ||| (x <<< (32 - n))) % w32

def shaCh (x y z : Nat) : Nat := (x &&& y) ^^^ ((x ^^^ 4294967295) &&& z)

def shaMaj (x y z : Nat) : Nat := (x &&& y) ^^^ (x &&& z) ^^^ (y &&& z)

def bigSigma0 (x : Nat) : Nat := rotr32 x 2 ^^^ rotr32 x 13 ^^^ rotr32 x 22

def bigSigma1 (x : Nat) : Nat := rotr32 x 6 ^^^ rotr32 x 11 ^^^ rotr32 x 25

def smallSigma0 (x : Nat) : Nat := rotr32 x 7 ^^^ rotr32 x 18 ^^^ (x >>> 3)

def smallSigma1 (x : Nat) : Nat := rotr32 x 17 ^^^ rotr32 x 19 ^^^ (x >>> 10)

def shaK : List Nat :=
  [1116352408, 1899447441, 3049323471, 3921009573, 961987163, 1508970993,
   2453635748, 2870763221, 3624381080, 310598401, 607225278, 1426881987,
   1925078388, 2162078206, 2614888103, 3248222580, 3835390401, 4022224774,
   264347078, 604807628, 770255983, 1249150122, 1555081692, 1996064986,
   2554220882, 2821834349, 2952996808, 3210313671, 3336571891, 3584528711,
   113926993, 338241895, 666307205, 773529912, 1294757372, 1396182291,
   1695183700, 1986661051, 2177026350, 2456956037, 2730485921, 2820302411,
   3259730800, 3345764771, 3516065817, 3600352804, 4094571909, 275423344,
   430227734, 506948616, 659060556, 883997877, 958139571, 1322822218,
   1537002063, 1747873779, 1955562222, 2024104815, 2227730452, 2361852424,
   2428436474, 2756734187, 3204031479, 3329325298]

/-- Padding: append 0x80, zero bytes up to 56 mod 64, then the bit length
as 8 big-endian bytes. -/
def padMessage (msg : List Nat) : List Nat :=
  let L := msg.length
  let zeros := (119 - L % 64) % 64
  msg ++ (128 :: List.replicate zeros 0) ++
    ([56, 48, 40, 32, 24, 16, 8, 0].map (fun s => ((8 * L) >>> s) % 256))

/-- Split the padded message into 64-byte blocks.  The structural fuel
argument (any upper bound on the number of blocks, initialised to the
length) only serves termination: each iteration consumes at least one
byte. -/
def toBlocksF : Nat → List Nat → List (List Nat)
  | _, [] => []
  | 0, _ => []
  | fuel + 1, l => l.take 64 :: toBlocksF fuel (l.drop 64)

def toBlocks (l : List Nat) : List (List Nat) :=
  toBlocksF l.length l

/-- First 16 schedule words: the block bytes taken big-endian. -/
def initW (block : List Nat) : List Nat :=
  (List.range 16).map (fun i =>
    block.getD (4 * i) 0 <<< 24 + block.getD (4 * i + 1) 0 <<< 16 +
    block.getD (4 * i + 2) 0 <<< 8 + block.getD (4 * i + 3) 0)

/-- Schedule extension step `w[i] = sigma1 w[i-2] + w[i-7] + sigma0 w[i-15] + w[i-16]`. -/
def nextW (w : List Nat) : Nat :=
  (smallSigma1 (w.getD (w.length - 2) 0) + w.getD (w.length - 7) 0 +
   smallSigma0 (w.getD (w.length - 15) 0) + w.getD (w.length - 16) 0) % w32

def schedule (block : List Nat) : List Nat :=
  (List.range 48).foldl (fun w _ => w ++ [nextW w]) (initW block)

/-- The running hash `h[0..7]` of the sha256 digest state. -/
structure Sha256H where
  s0 : Nat
  s1 : Nat
  s2 : Nat
  s3 : Nat
  s4 : Nat
  s5 : Nat
  s6 : Nat
  s7 : Nat
deriving DecidableEq, Repr

def shaH0 : Sha256H :=
  ⟨1779033703, 3144134277, 1013904242, 2773480762, 1359893119, 2600822924, 528734635, 1541459225⟩

/-- One compression round; `st` holds the working variables a..h in order. -/
def shaRound (st : Sha256H) (kw : Nat × Nat) : Sha256H :=
  let t1 := (st.s7 + bigSigma1 st.s4 + shaCh st.s4 st.s5 st.s6 + kw.1 + kw.2) % w32
  let t2 := (bigSigma0 st.s0 + shaMaj st.s0 st.s1 st.s2) % w32
  ⟨(t1 + t2) % w32, st.s0, st.s1, st.s2, (st.s3 + t1) % w32, st.s4, st.s5, st.s6⟩

def compressBlock (hv : Sha256H) (block : List Nat) : Sha256H :=
  let f := (shaK.zip (schedule block)).foldl shaRound hv
  ⟨(hv.s0 + f.s0) % w32, (hv.s1 + f.s1) % w32, (hv.s2 + f.s2) % w32, (hv.s3 + f.s3) % w32,
   (hv.s4 + f.s4) % w32, (hv.s5 + f.s5) % w32, (hv.s6 + f.s6) % w32, (hv.s7 + f.s7) % w32⟩

def wordBytesBE (w : Nat) : List Nat :=
  [w / 16777216 % 256, w / 65536 % 256, w / 256 % 256, w % 256]

/-- SHA-256 digest of a byte string, as its 32 bytes. -/
def sha256sum (msg : List Nat) : List Nat :=
  let hv := (toBlocks (padMessage msg)).foldl compressBlock shaH0
  wordBytesBE hv.s0 ++ wordBytesBE hv.s1 ++ wordBytesBE hv.s2 ++ wordBytesBE hv.s3 ++
  wordBytesBE hv.s4 ++ wordBytesBE hv.s5 ++ wordBytesBE hv.s6 ++ wordBytesBE hv.s7

/-- Go's `encoding/hex` digit table "0123456789abcdef". -/
def hexTable : List Char :=
  "0123456789abcdef".toList

/-- hex.EncodeToString: every byte becomes `hextable[b>>4], hextable[b&0x0f]`. -/
def hexEncodeToString (bytes : List Nat) : Str :=
  bytes.foldr (fun b acc => hexTable.getD (b / 16) '0' :: (hexTable.getD (b % 16) '0' :: acc)) []

/-! ### Chunking (pkg/storage/dedup.go)

`ChunkSize` is the fixed 4 MiB window. `chunkData` mirrors the
`io.ReadFull` loop: each iteration consumes up to `ChunkSize` bytes,
records the hex SHA-256 of exactly the bytes read together with their
count, and stops at end of stream.
-/

def ChunkSize : Nat := 4 * 1024 * 1024

structure ChunkInfo where
  Hash : Str
  Size : Int
deriving DecidableEq, Repr

/-- The successive byte windows the read loop sees: full `ChunkSize`
windows, with a short final window.  The structural fuel argument (any
upper bound on the number of windows, initialised to the length) only
serves termination: each iteration consumes at least one byte. -/
def chunkWindowsF : Nat → List Nat → List (List Nat)
  | _, [] => []
  | 0, _ => []
  | fuel + 1, data => data.take ChunkSize :: chunkWindowsF fuel (data.drop ChunkSize)

def chunkWindows (data : List Nat) : List (List Nat) :=
  chunkWindowsF data.length data

def chunkDataF : Nat → List Nat → List ChunkInfo
  | _, [] => []
  | 0, _ => []
  | fuel + 1, data =>
    { Hash := hexEncodeToString (sha256sum (data.take ChunkSize)),
      Size := ((data.take ChunkSize).length : Int) } :: chunkDataF fuel (data.drop ChunkSize)

def chunkData (data : List Nat) : List ChunkInfo :=
  chunkDataF data.length data

/-! ### The index database (IndexDB, pkg/storage/dedup.go)

Tables `chunks(hash PK, size, ref_count DEFAULT 1)` and
`files(path PK, chunks)` become lists of rows; the SQL statements of each
method become list transformations.
-/

structure ChunkRow where
  hash : Str
  size : Int
  refCount : Int
deriving DecidableEq, Repr

structure FileRow where
  path : Str
  chunks : Str
deriving DecidableEq, Repr

structure IndexState where
  chunks : List ChunkRow
  files : List FileRow
deriving DecidableEq, Repr

/-- INSERT OR IGNORE INTO chunks (hash, size): a fresh row takes the
schema default `ref_count = 1`; an existing row for the hash is left
alone. -/
def insertOrIgnoreChunk (t : List ChunkRow) (h : Str) (sz : Int) : List ChunkRow :=
  if t.any (fun r => r.hash == h) then t else t ++ [{ hash := h, size := sz, refCount := 1 }]

/-- UPDATE chunks SET ref_count = ref_count + 1 WHERE hash = ?. -/
def updateAddRefCount (t : List ChunkRow) (h : Str) : List ChunkRow :=
  t.map (fun r => if r.hash == h then { r with refCount := r.refCount + 1 } else r)

/-- The comma accumulation of `IndexFile`: hashes joined with "," (a
separator before every element except the first). -/
def commaJoin : List Str → Str
  | [] => []
  | [h] => h
  | h :: t => h ++ ',' :: commaJoin t

/-- INSERT OR REPLACE INTO files (path, chunks). -/
def upsertFileRow (fs : List FileRow) (p csv : Str) : List FileRow :=
  if fs.any (fun fr => fr.path == p) then
    fs.map (fun fr => if fr.path == p then { path := p, chunks := csv } else fr)
  else fs ++ [{ path := p, chunks := csv }]

/-- IndexFile: per chunk an insert-or-ignore followed by an unconditional
refcount bump, then the file row upsert with the comma-joined hashes, all
in one transaction. -/
def indexFile (st : IndexState) (path : Str) (chunks : List ChunkInfo) : IndexState :=
  let t := chunks.foldl (fun t c => updateAddRefCount (insertOrIgnoreChunk t c.Hash c.Size) c.Hash) st.chunks
  let csv := commaJoin (chunks.map (fun c => c.Hash))
  { chunks := t, files := upsertFileRow st.files path csv }

/-- IncrementRefCount: UPDATE chunks SET ref_count = ref_count + 1. -/
def incrementRefCount (st : IndexState) (h : Str) : IndexState :=
  { st with chunks := updateAddRefCount st.chunks h }

/-- DecrementRefCount: UPDATE chunks SET ref_count = ref_count - 1 WHERE
hash = ? — unconditional, with no floor and no returned value. -/
def decrementRefCount (st : IndexState) (h : Str) : IndexState :=
  { st with chunks := st.chunks.map (fun r => if r.hash == h then { r with refCount := r.refCount - 1 } else r) }

/-- GetChunkRefCount: SELECT ref_count FROM chunks WHERE hash = ?
(`none` models the sql.ErrNoRows outcome). -/
def getChunkRefCount (st : IndexState) (h : Str) : Option Int :=
  (st.chunks.find? (fun r => r.hash == h)).map (fun r => r.refCount)

/-! ### The dedup store (DedupStore, pkg/storage/dedup.go)

`disk` is the set of file names present under `<root>/chunks/`.
-/

structure StoreState where
  disk : List Str
  index : IndexState
deriving DecidableEq, Repr

/-- storeChunk: it stats `chunks/<Hash>`; when that file exists it bumps
the refcount, otherwise it returns nil — no branch ever writes the chunk
file. -/
def storeChunk (st : StoreState) (c : ChunkInfo) : StoreState :=
  if st.disk.contains c.Hash then { st with index := incrementRefCount st.index c.Hash } else st

/-- WriteFile: chunk the data, run storeChunk on every chunk, then index
the file. -/
def writeFile (st : StoreState) (path : Str) (data : List Nat) : StoreState :=
  let chunks := chunkData data
  let st1 := chunks.foldl storeChunk st
  { st1 with index := indexFile st1.index path chunks }

/-! ### Rebuild (IndexDB.rebuild and parseChunkHashes) -/

/-- parseChunkHashes: scan for commas, emitting the nonempty segments;
`cur` carries the pending segment `chunks[start:i]`. -/
def parseGo (cur : Str) : Str → List Str
  | [] => if cur == [] then [] else [cur]
  | c :: rest =>
    if c == ',' then (if cur == [] then parseGo [] rest else cur :: parseGo [] rest)
    else parseGo (cur ++ [c]) rest

def parseChunkHashes (chunks : Str) : List Str :=
  parseGo [] chunks

/-- The `refCounts` Go map built while scanning the files rows, modelled
by its lookup function (a hash is in the map iff its value is positive,
since entries only arise from `refCounts[hash]++`). Rows with an empty
chunks string are skipped. -/
def buildRefCounts (files : List FileRow) : Str → Nat :=
  files.foldl
    (fun m fr =>
      if fr.chunks == [] then m
      else (parseChunkHashes fr.chunks).foldl
        (fun m h => fun h' => if h' == h then m h' + 1 else m h') m)
    (fun _ => 0)

/-- rebuild: DELETE chunks with ref_count <= 0, then for every entry of
the refCounts map set that hash's ref_count to its count (hashes outside
the map — count zero — are not updated). -/
def rebuild (st : IndexState) : IndexState :=
  let kept := st.chunks.filter (fun r => decide (0 < r.refCount))
  let counts := buildRefCounts st.files
  { st with chunks := kept.map (fun r =>
      if 0 < counts r.hash then { r with refCount := (counts r.hash : Int) } else r) }

/-- Specification-side occurrence count of a digest across the files
rows. -/
def specOccCount (files : List FileRow) (h : Str) : Nat :=
  (files.map (fun fr => (parseChunkHashes fr.chunks).count h)).sum

/-! ### Layer processing (LayerProcessor.ProcessLayer, pkg/storage/layer.go)

State tracked: the digest marker files under `<root>/digests/` that
`isLayerProcessed` stats, the chunk index (which ProcessLayer never
touches), and logs of the extractions performed and the erofs images and
metadata files produced.  `sha256.New` over the streamed archive gives
the layer's content digest.
-/

structure LayerState where
  digestMarkers : List Str
  index : IndexState
  extracted : List Str
  images : List Str
  metadataFiles : List Str
deriving DecidableEq, Repr

/-- isLayerProcessed: stat of `<root>/digests/<digest[:2]>/<digest>`;
nothing in the repository ever creates such a marker. -/
def isLayerProcessed (st : LayerState) (digest : Str) : Bool :=
  st.digestMarkers.contains digest

/-- ProcessLayer: hash the archive; if the digest marker exists, return
successfully at once; otherwise extract the archive, build the erofs
image and save the metadata — without recording the digest marker.  The
returned Bool is true exactly on the short-circuit path. -/
def processLayer (st : LayerState) (layerID : Str) (data : List Nat) : LayerState × Bool :=
  let digest := hexEncodeToString (sha256sum data)
  if isLayerProcessed st digest then (st, true)
  else
    ({ st with
        extracted := st.extracted ++ [layerID],
        images := st.images ++ [layerID],
        metadataFiles := st.metadataFiles ++ [layerID] }, false)

/-! ### The erofs mount manager (MountManager, pkg/erofs/mount.go)

`activeMounts` is the `image_id -> *MountPoint` map; `events` records the
external actions (losetup attach, mount, umount, losetup detach, mount
directory removal) in order.  The kernel-chosen loop device name is
irrelevant to the claims and is modelled as a token derived from the
image path.
-/

structure MountPoint where
  id : Str
  imagePath : Str
  mountPath : Str
  loopDevice : Str
  refCount : Int
deriving DecidableEq, Repr

inductive MEvent where
  | losetupAttach (imagePath : Str)
  | mountCmd (dev path : Str)
  | umountCmd (path : Str)
  | losetupDetach (dev : Str)
  | removeMountDir (path : Str)
deriving DecidableEq, Repr

structure MMState where
  mountsDir : Str
  activeMounts : List (Str × MountPoint)
  events : List MEvent
deriving DecidableEq, Repr

def lookupMount (st : MMState) (imageID : Str) : Option MountPoint :=
  (st.activeMounts.find? (fun e => e.1 == imageID)).map (fun e => e.2)

def filepathJoin (a b : Str) : Str := a ++ '/' :: b

def setupLoopDevice (imagePath : Str) : Str := ['l', 'o', 'o', 'p', ':'] ++ imagePath

/-- MountErofs: an already-recorded image gets its RefCount bumped and
its recorded path returned; otherwise a loop device is attached, the
image mounted at `<mounts>/<imageID>` and a fresh record with RefCount 1
stored. -/
def mountErofs (st : MMState) (imageID imagePath : Str) : MMState × Str :=
  match lookupMount st imageID with
  | some mp =>
    ({ st with activeMounts := st.activeMounts.map (fun e =>
        if e.1 == imageID then (e.1, { e.2 with refCount := e.2.refCount + 1 }) else e) },
     mp.mountPath)
  | none =>
    let mountPath := filepathJoin st.mountsDir imageID
    let loopDev := setupLoopDevice imagePath
    ({ st with
        activeMounts := st.activeMounts ++
          [(imageID, { id := imageID, imagePath := imagePath, mountPath := mountPath,
                       loopDevice := loopDev, refCount := 1 })],
        events := st.events ++ [MEvent.losetupAttach imagePath, MEvent.mountCmd loopDev mountPath] },
     mountPath)

/-- Unmount: unknown image is an error (Bool false); otherwise RefCount
is decremented, and only when it drops to zero or below are the umount,
loop detach, record deletion and mount-directory removal performed. -/
def unmountErofs (st : MMState) (imageID : Str) : MMState × Bool :=
  match lookupMount st imageID with
  | none => (st, false)
  | some mp =>
    if 0 < mp.refCount - 1 then
      ({ st with activeMounts := st.activeMounts.map (fun e =>
          if e.1 == imageID then (e.1, { e.2 with refCount := mp.refCount - 1 }) else e) },
       true)
    else
      ({ st with
          activeMounts := st.activeMounts.filter (fun e => !(e.1 == imageID)),
          events := st.events ++ [MEvent.umountCmd mp.mountPath, MEvent.losetupDetach mp.loopDevice,
                                  MEvent.removeMountDir mp.mountPath] },
       true)

/-- n successive MountErofs calls for the same image. -/
def mountErofsN (st : MMState) (imageID imagePath : Str) : Nat → MMState
  | 0 => st
  | n + 1 => (mountErofs (mountErofsN st imageID imagePath n) imageID imagePath).1

/-- m successive Unmount calls for the same image. -/
def unmountErofsN (st : MMState) (imageID : Str) : Nat → MMState
  | 0 => st
  | m + 1 => (unmountErofs (unmountErofsN st imageID m) imageID).1

/-! ### Snapshot removal (Snapshotter, pkg/snapshotter/snapshotter.go)

`activeMounts` is the set of keys marked true by `Mounts`; `metaRows` the
metadata rows of the containerd MetaStore; `snapDirs` the on-disk
snapshot directories.  Keys are identified with snapshot ids.
-/

inductive RemoveOutcome where
  | deferred
  | removed
  | notFound
deriving DecidableEq, Repr

structure SnapState where
  activeMounts : List Str
  metaRows : List Str
  snapDirs : List Str
deriving DecidableEq, Repr

/-- Mounts(key): sets `activeMounts[key] = true` before recomposing the
mount spec. -/
def markMounted (st : SnapState) (key : Str) : SnapState :=
  if st.activeMounts.contains key then st else { st with activeMounts := st.activeMounts ++ [key] }

/-- Remove(key): an actively-mounted key defers (success, no state
change); otherwise the metadata row is dropped (an absent row is a
NotFound error that rolls back) and DedupStore.Remove deletes the
snapshot directory.  The `delete` of the (absent) map entry on the
non-deferred path is a no-op and is not modelled. -/
def removeSnapshot (st : SnapState) (key : Str) : SnapState × RemoveOutcome :=
  if st.activeMounts.contains key then (st, RemoveOutcome.deferred)
  else if st.metaRows.contains key then
    ({ st with
        metaRows := st.metaRows.filter (fun k => !(k == key)),
        snapDirs := st.snapDirs.filter (fun k => !(k == key)) },
     RemoveOutcome.removed)
  else (st, RemoveOutcome.notFound)

/-! ## Theorems -/


theorem one_le_chunkSize : 1 ≤ ChunkSize := by decide

theorem chunkWindowsF_congr (f1 : Nat) : ∀ (data : List Nat) (f2 : Nat),
    data.length ≤ f1 → data.length ≤ f2 → chunkWindowsF f1 data = chunkWindowsF f2 data := by
  induction f1 with
  | zero =>
    intro data f2 h1 _
    have : data = [] := List.eq_nil_of_length_eq_zero (Nat.le_zero.mp h1)
    subst this
    cases f2 <;> rfl
  | succ f1 ih =>
    intro data f2 h1 h2
    cases data with
    | nil => cases f2 <;> rfl
    | cons d ds =>
      cases f2 with
      | zero => exact absurd h2 (by simp)
      | succ g =>
        simp only [chunkWindowsF]
        congr 1
        have hC := one_le_chunkSize
        have hf1 : ((d :: ds).drop ChunkSize).length ≤ f1 := by
          simp only [List.length_drop, List.length_cons]
          have : ds.length ≤ f1 := Nat.succ_le_succ_iff.mp (by simpa using h1)
          omega
        have hg : ((d :: ds).drop ChunkSize).length ≤ g := by
          simp only [List.length_drop, List.length_cons]
          have : ds.length ≤ g := Nat.succ_le_succ_iff.mp (by simpa using h2)
          omega
        exact ih _ g hf1 hg

theorem chunkWindows_cons (data : List Nat) (h : data ≠ []) :
    chunkWindows data = data.take ChunkSize :: chunkWindows (data.drop ChunkSize) := by
  obtain ⟨d, ds, rfl⟩ := List.exists_cons_of_ne_nil h
  show chunkWindowsF (ds.length + 1) (d :: ds) = _
  simp only [chunkWindowsF]
  congr 1
  have hC := one_le_chunkSize
  apply chunkWindowsF_congr
  · simp only [List.length_drop, List.length_cons]; omega
  · exact le_refl _

theorem chunkDataF_congr (f1 : Nat) : ∀ (data : List Nat) (f2 : Nat),
    data.length ≤ f1 → data.length ≤ f2 → chunkDataF f1 data = chunkDataF f2 data := by
  induction f1 with
  | zero =>
    intro data f2 h1 _
    have : data = [] := List.eq_nil_of_length_eq_zero (Nat.le_zero.mp h1)
    subst this
    cases f2 <;> rfl
  | succ f1 ih =>
    intro data f2 h1 h2
    cases data with
    | nil => cases f2 <;> rfl
    | cons d ds =>
      cases f2 with
      | zero => exact absurd h2 (by simp)
      | succ g =>
        simp only [chunkDataF]
        congr 1
        have hC := one_le_chunkSize
        have hf1 : ((d :: ds).drop ChunkSize).length ≤ f1 := by
          simp only [List.length_drop, List.length_cons]
          have : ds.length ≤ f1 := Nat.succ_le_succ_iff.mp (by simpa using h1)
          omega
        have hg : ((d :: ds).drop ChunkSize).length ≤ g := by
          simp only [List.length_drop, List.length_cons]
          have : ds.length ≤ g := Nat.succ_le_succ_iff.mp (by simpa using h2)
          omega
        exact ih _ g hf1 hg

theorem chunkData_cons (data : List Nat) (h : data ≠ []) :
    chunkData data =
      { Hash := hexEncodeToString (sha256sum (data.take ChunkSize)),
        Size := ((data.take ChunkSize).length : Int) } :: chunkData (data.drop ChunkSize) := by
  obtain ⟨d, ds, rfl⟩ := List.exists_cons_of_ne_nil h
  show chunkDataF (ds.length + 1) (d :: ds) = _
  simp only [chunkDataF]
  congr 1
  have hC := one_le_chunkSize
  apply chunkDataF_congr
  · simp only [List.length_drop, List.length_cons]; omega
  · exact le_refl _

theorem chunkWindows_flatten (data : List Nat) : (chunkWindows data).flatten = data := by
  by_cases h : data = []
  · subst h; rfl
  · rw [chunkWindows_cons data h, List.flatten_cons, chunkWindows_flatten (data.drop ChunkSize),
      List.take_append_drop]
termination_by data.length
decreasing_by
  simp only [List.length_drop]
  exact Nat.sub_lt (List.length_pos.mpr h) (by decide)

theorem chunkWindows_size (data : List Nat) :
    ∀ w ∈ chunkWindows data, 1 ≤ w.length ∧ w.length ≤ ChunkSize := by
  by_cases h : data = []
  · subst h; intro w hw; cases hw
  · rw [chunkWindows_cons data h]
    intro w hw
    rcases List.mem_cons.mp hw with h1 | h2
    · subst h1
      constructor
      · simp only [List.length_take]
        exact le_min one_le_chunkSize (List.length_pos.mpr h)
      · simp only [List.length_take]
        exact min_le_left _ _
    · exact chunkWindows_size (data.drop ChunkSize) w h2
termination_by data.length
decreasing_by
  simp only [List.length_drop]
  exact Nat.sub_lt (List.length_pos.mpr h) (by decide)

theorem chunkWindows_dropLast (data : List Nat) :
    ∀ w ∈ (chunkWindows data).dropLast, w.length = ChunkSize := by
  by_cases h : data = []
  · subst h; intro w hw; cases hw
  · rw [chunkWindows_cons data h]
    rcases h2 : chunkWindows (data.drop ChunkSize) with _ | ⟨r, rs⟩
    · intro w hw; cases hw
    · intro w hw
      rw [List.dropLast_cons₂] at hw
      rcases List.mem_cons.mp hw with h3 | h4
      · subst h3
        have hne : data.drop ChunkSize ≠ [] := by
          intro hnil
          rw [hnil] at h2
          cases h2
        have hlt : ChunkSize < data.length := List.length_lt_of_drop_ne_nil hne
        simp only [List.length_take]
        exact min_eq_left (le_of_lt hlt)
      · have := chunkWindows_dropLast (data.drop ChunkSize)
        rw [h2] at this
        exact this w h4
termination_by data.length
decreasing_by
  simp only [List.length_drop]
  exact Nat.sub_lt (List.length_pos.mpr h) (by decide)

theorem chunkData_eq_map (data : List Nat) :
    chunkData data = (chunkWindows data).map (fun w =>
      { Hash := hexEncodeToString (sha256sum w), Size := (w.length : Int) }) := by
  by_cases h : data = []
  · subst h; rfl
  · rw [chunkData_cons data h, chunkWindows_cons data h, List.map_cons,
      chunkData_eq_map (data.drop ChunkSize)]
termination_by data.length
decreasing_by
  simp only [List.length_drop]
  exact Nat.sub_lt (List.length_pos.mpr h) (by decide)

theorem hexEncodeToString_length (bytes : List Nat) :
    (hexEncodeToString bytes).length = 2 * bytes.length := by
  induction bytes with
  | nil => rfl
  | cons b bs ih =>
    simp only [hexEncodeToString, List.foldr_cons, List.length_cons] at *
    omega

theorem hexTable_getD_mem (i : Nat) : hexTable.getD i '0' ∈ hexTable := by
  rw [List.getD_eq_getElem?_getD]
  rcases h : hexTable[i]? with _ | c
  · simp [Option.getD]
    decide
  · simp only [Option.getD_some]
    exact List.getElem?_mem h

theorem hexEncodeToString_mem (bytes : List Nat) :
    ∀ c ∈ hexEncodeToString bytes, c ∈ hexTable := by
  induction bytes with
  | nil => intro c hc; cases hc
  | cons b bs ih =>
    intro c hc
    simp only [hexEncodeToString, List.foldr_cons] at hc
    rcases List.mem_cons.mp hc with h1 | hc2
    · subst h1; exact hexTable_getD_mem _
    · rcases List.mem_cons.mp hc2 with h2 | hc3
      · subst h2; exact hexTable_getD_mem _
      · exact ih c hc3

theorem sha256sum_length (msg : List Nat) : (sha256sum msg).length = 32 := by
  simp [sha256sum, wordBytesBE]

/-- Claim C2: chunkData cuts the stream into successive windows, every
window but possibly the last of size exactly ChunkSize, the last of size
between one byte and ChunkSize; each chunk records the 64-character
lowercase-hex SHA-256 of its window together with the window length, and
the windows concatenate back to the original stream. -/
theorem chunkData_spec (data : List Nat) :
    chunkData data = (chunkWindows data).map (fun w =>
      { Hash := hexEncodeToString (sha256sum w), Size := (w.length : Int) }) ∧
    (chunkWindows data).flatten = data ∧
    (∀ w ∈ (chunkWindows data).dropLast, w.length = ChunkSize) ∧
    (∀ w ∈ chunkWindows data, 1 ≤ w.length ∧ w.length ≤ ChunkSize) ∧
    (∀ c ∈ chunkData data, c.Hash.length = 64 ∧ ∀ ch ∈ c.Hash, ch ∈ hexTable) := by
  refine ⟨chunkData_eq_map data, chunkWindows_flatten data, chunkWindows_dropLast data,
    chunkWindows_size data, ?_⟩
  intro c hc
  rw [chunkData_eq_map data] at hc
  obtain ⟨w, _, rfl⟩ := List.mem_map.mp hc
  constructor
  · show (hexEncodeToString (sha256sum w)).length = 64
    rw [hexEncodeToString_length, sha256sum_length]
  · exact hexEncodeToString_mem _

/-- Witness for C2 at the one-byte stream. -/
theorem chunkData_spec_witness :
    (chunkWindows [0]).flatten = [0] ∧ (∀ w ∈ chunkWindows [0], 1 ≤ w.length ∧ w.length ≤ ChunkSize) :=
  ⟨(chunkData_spec [0]).2.1, (chunkData_spec [0]).2.2.2.1⟩

theorem parseGo_append (seg : Str) : ∀ (cur rest : Str), ',' ∉ seg →
    parseGo cur (seg ++ rest) = parseGo (cur ++ seg) rest := by
  induction seg with
  | nil => intro cur rest _; simp
  | cons c cs ih =>
    intro cur rest hmem
    have hc : ¬ (c == ',') = true := by
      simp only [beq_iff_eq]
      intro h
      exact hmem (h ▸ List.mem_cons_self c cs)
    show parseGo cur (c :: (cs ++ rest)) = _
    rw [parseGo, if_neg hc, ih (cur ++ [c]) rest (fun hm => hmem (List.mem_cons_of_mem _ hm))]
    simp [List.append_assoc]

theorem parseChunkHashes_commaJoin (hs : List Str)
    (hall : ∀ s ∈ hs, s ≠ [] ∧ ',' ∉ s) : parseChunkHashes (commaJoin hs) = hs := by
  induction hs with
  | nil => rfl
  | cons h t ih =>
    cases t with
    | nil =>
      have h1 := hall h (List.mem_cons_self h [])
      show parseGo [] (commaJoin [h]) = [h]
      have hj : commaJoin [h] = h ++ [] := by simp [commaJoin]
      rw [hj, parseGo_append h [] [] h1.2, List.nil_append, parseGo,
        if_neg (by simp only [beq_iff_eq]; exact h1.1)]
    | cons h2 t2 =>
      have h1 := hall h (List.mem_cons_self h (h2 :: t2))
      show parseGo [] (h ++ ',' :: commaJoin (h2 :: t2)) = h :: h2 :: t2
      rw [parseGo_append h [] (',' :: commaJoin (h2 :: t2)) h1.2, List.nil_append, parseGo,
        if_pos (show (',' == ',') = true from rfl),
        if_neg (by simp only [beq_iff_eq]; exact h1.1)]
      exact congrArg (h :: .) (ih (fun s hs => hall s (List.mem_cons_of_mem _ hs)))

/-- Claim C10: for every non-empty sequence of non-empty, comma-free
hashes, parseChunkHashes recovers exactly the comma-joined sequence that
IndexFile stores, and parseChunkHashes of the empty string is empty. -/
theorem csv_roundTrip (hs : List Str) (hne : hs ≠ [])
    (hall : ∀ s ∈ hs, s ≠ [] ∧ ',' ∉ s) :
    parseChunkHashes (commaJoin hs) = hs ∧ parseChunkHashes [] = [] :=
  ⟨parseChunkHashes_commaJoin hs hall, rfl⟩

/-- Witness for C10 on two hashes. -/
theorem csv_roundTrip_witness :
    parseChunkHashes (commaJoin [['a'], ['b', 'c']]) = [['a'], ['b', 'c']] ∧
      parseChunkHashes [] = [] :=
  csv_roundTrip [['a'], ['b', 'c']] (by decide) (by decide)

theorem buildRefCounts_step (hs : List Str) : ∀ (m : Str → Nat) (h : Str),
    (hs.foldl (fun m h0 => fun h' => if h' == h0 then m h' + 1 else m h') m) h
      = m h + hs.count h := by
  induction hs with
  | nil => intro m h; simp
  | cons h0 t ih =>
    intro m h
    rw [List.foldl_cons, ih, List.count_cons]
    by_cases hh : h = h0
    · subst hh; simp; omega
    · have h1 : (h == h0) = false := by simp [hh]
      have h2 : (h0 == h) = false := by simp [Ne.symm hh]
      simp [h1, h2]

theorem buildRefCounts_aux (files : List FileRow) : ∀ (m : Str → Nat) (h : Str),
    (files.foldl
      (fun m fr =>
        if fr.chunks == [] then m
        else (parseChunkHashes fr.chunks).foldl
          (fun m h0 => fun h' => if h' == h0 then m h' + 1 else m h') m) m) h
      = m h + specOccCount files h := by
  induction files with
  | nil => intro m h; simp [specOccCount]
  | cons fr t ih =>
    intro m h
    rw [List.foldl_cons, ih]
    have hocc : specOccCount (fr :: t) h
        = (parseChunkHashes fr.chunks).count h + specOccCount t h := by
      simp [specOccCount]
    rw [hocc]
    by_cases he : fr.chunks == []
    · have : fr.chunks = [] := by simpa [beq_iff_eq] using he
      rw [if_pos he]
      simp [this, parseChunkHashes, parseGo]
    · rw [if_neg he, buildRefCounts_step]
      omega

theorem buildRefCounts_eq (files : List FileRow) (h : Str) :
    buildRefCounts files h = specOccCount files h := by
  have := buildRefCounts_aux files (fun _ => 0) h
  simpa [buildRefCounts] using this

/-- Claim C6 (amended): after rebuild, every surviving chunk row whose
digest occurs at least once across the files rows carries exactly that
occurrence count as refcount; a surviving row whose digest occurs nowhere
is an unmodified pre-rebuild row with positive refcount (rows with
refcount at most zero were deleted first). -/
theorem rebuild_refcounts (st : IndexState) :
    ∀ r ∈ (rebuild st).chunks,
      (0 < specOccCount st.files r.hash →
        r.refCount = (specOccCount st.files r.hash : Int)) ∧
      (specOccCount st.files r.hash = 0 → r ∈ st.chunks ∧ 0 < r.refCount) := by
  intro r hr
  simp only [rebuild] at hr
  obtain ⟨r0, hr0, hfr⟩ := List.mem_map.mp hr
  have hkept := List.mem_filter.mp hr0
  have hpos0 : 0 < r0.refCount := of_decide_eq_true hkept.2
  have hc := buildRefCounts_eq st.files r0.hash
  by_cases hcnt : 0 < buildRefCounts st.files r0.hash
  · rw [if_pos hcnt] at hfr
    subst hfr
    constructor
    · intro _
      show (buildRefCounts st.files r0.hash : Int) = _
      rw [hc]
    · intro h0
      rw [hc, h0] at hcnt
      exact absurd hcnt (by omega)
  · rw [if_neg hcnt] at hfr
    subst hfr
    constructor
    · intro hgt
      rw [hc] at hcnt
      exact absurd hgt hcnt
    · intro _
      exact ⟨hkept.1, hpos0⟩

/-- Claim C6 counterexample: a chunks row ("aa", size 1, refcount 3) with
no files rows survives rebuild with refcount 3, yet its occurrence count
is 0 — so rebuild does not make every stored refcount equal the
occurrence count. -/
theorem rebuild_claim_counterexample :
    ¬ (∀ r ∈ (rebuild ⟨[⟨['a', 'a'], 1, 3⟩], []⟩).chunks,
        r.refCount = (specOccCount ([] : List FileRow) r.hash : Int)) := by
  decide

/-- Witness for the amended C6 theorem at a one-row database. -/
theorem rebuild_refcounts_witness :
    ({ hash := ['a', 'a'], size := 1, refCount := 1 } : ChunkRow).refCount
      = (specOccCount [⟨['f'], ['a', 'a']⟩] (['a', 'a'] : Str) : Int) :=
  (rebuild_refcounts ⟨[⟨['a', 'a'], 1, 7⟩], [⟨['f'], ['a', 'a']⟩]⟩
    ⟨['a', 'a'], 1, 1⟩ (by decide)).1 (by decide)

theorem find?_hash_map_update (t : List ChunkRow) (h : Str) (g : ChunkRow → ChunkRow)
    (hg : ∀ r, (g r).hash = r.hash) :
    (t.map (fun r => if r.hash == h then g r else r)).find? (fun r => r.hash == h)
      = (t.find? (fun r => r.hash == h)).map (fun r => if r.hash == h then g r else r) := by
  induction t with
  | nil => rfl
  | cons r rs ih =>
    by_cases hr : (r.hash == h) = true
    · simp only [List.map_cons, if_pos hr, List.find?_cons]
      rw [show ((g r).hash == h) = true by rw [hg r]; exact hr, hr]
      show some (g r) = some (if (r.hash == h) = true then g r else r)
      rw [if_pos hr]
    · simp only [List.map_cons, if_neg hr, List.find?_cons]
      rw [Bool.of_not_eq_true hr]
      simpa [if_neg hr] using ih

/-- Claim C5 (amended): DecrementRefCount unconditionally lowers the
stored refcount of the digest by one — it can drop below zero — and
returns no value. -/
theorem decrementRefCount_spec (st : IndexState) (h : Str) (v : Int)
    (hv : getChunkRefCount st h = some v) :
    getChunkRefCount (decrementRefCount st h) h = some (v - 1) := by
  unfold getChunkRefCount at hv ⊢
  unfold decrementRefCount
  simp only
  rw [find?_hash_map_update st.chunks h (fun r => { r with refCount := r.refCount - 1 })
    (fun r => rfl)]
  rcases hfind : st.chunks.find? (fun r => r.hash == h) with _ | r
  · rw [hfind] at hv
    cases hv
  · rw [hfind] at hv
    have hrh := List.find?_some hfind
    simp only at hrh
    simp only [Option.map_some', Option.some_inj] at hv
    simp only [← hv]
    simp
    exact ⟨r, hfind, by rw [if_pos (beq_iff_eq.mp hrh)]⟩

/-- Claim C5 counterexample: decrementing a digest whose refcount is 0
stores -1, strictly below zero. -/
theorem decrement_claim_counterexample :
    getChunkRefCount (decrementRefCount ⟨[⟨['a', 'a'], 1, 0⟩], []⟩ ['a', 'a']) ['a', 'a']
        = some (-1) ∧ (-1 : Int) < 0 := by
  constructor
  · decide
  · decide

/-- Witness for the amended C5 theorem at refcount 5. -/
theorem decrementRefCount_spec_witness :
    getChunkRefCount (decrementRefCount ⟨[⟨['a', 'a'], 1, 5⟩], []⟩ ['a', 'a']) ['a', 'a']
      = some 4 := by
  have := decrementRefCount_spec ⟨[⟨['a', 'a'], 1, 5⟩], []⟩ ['a', 'a'] 5 (by decide)
  simpa using this

theorem find?_pair_map_update (l : List (Str × MountPoint)) (imageID : Str)
    (g : MountPoint → MountPoint) :
    (l.map (fun e => if e.1 == imageID then (e.1, g e.2) else e)).find? (fun e => e.1 == imageID)
      = (l.find? (fun e => e.1 == imageID)).map (fun e => (e.1, g e.2)) := by
  induction l with
  | nil => rfl
  | cons e es ih =>
    by_cases he : (e.1 == imageID) = true
    · simp only [List.map_cons, if_pos he, List.find?_cons]
      rw [show (((e.1, g e.2) : Str × MountPoint).1 == imageID) = true from he]
      rfl
    · simp only [List.map_cons, if_neg he, List.find?_cons]
      rw [Bool.of_not_eq_true he]
      simpa using ih

theorem lookupMount_mapBump (st : MMState) (imageID : Str) (g : MountPoint → MountPoint)
    (evs : List MEvent) :
    lookupMount { st with
        activeMounts := st.activeMounts.map (fun e =>
          if e.1 == imageID then (e.1, g e.2) else e),
        events := evs } imageID
      = (lookupMount st imageID).map g := by
  unfold lookupMount
  simp only
  rw [find?_pair_map_update]
  rcases hfe : st.activeMounts.find? (fun e => e.1 == imageID) with _ | e <;> simp [hfe]

theorem lookupMount_filter_none (st : MMState) (imageID : Str) (evs : List MEvent) :
    lookupMount { st with
        activeMounts := st.activeMounts.filter (fun e => !(e.1 == imageID)),
        events := evs } imageID = none := by
  unfold lookupMount
  simp only
  rw [List.find?_eq_none.mpr]
  · rfl
  · intro e he
    have := (List.mem_filter.mp he).2
    simp only [Bool.not_eq_true'] at this
    simp [this]

theorem mountErofs_recorded (st : MMState) (imageID imagePath : Str) (mp : MountPoint)
    (hmp : lookupMount st imageID = some mp) :
    (mountErofs st imageID imagePath).2 = mp.mountPath ∧
    (mountErofs st imageID imagePath).1.events = st.events ∧
    lookupMount (mountErofs st imageID imagePath).1 imageID
      = some { mp with refCount := mp.refCount + 1 } := by
  unfold mountErofs
  rw [hmp]
  refine ⟨rfl, rfl, ?_⟩
  simp only
  rw [lookupMount_mapBump st imageID (fun x => { x with refCount := x.refCount + 1 }) st.events]
  rw [hmp]
  rfl

theorem unmountErofs_spec (st : MMState) (imageID : Str) (mp : MountPoint)
    (hmp : lookupMount st imageID = some mp) :
    (1 < mp.refCount →
      (unmountErofs st imageID).1.events = st.events ∧
      lookupMount (unmountErofs st imageID).1 imageID
        = some { mp with refCount := mp.refCount - 1 } ∧
      (unmountErofs st imageID).2 = true) ∧
    (mp.refCount = 1 →
      (unmountErofs st imageID).1.events
        = st.events ++ [MEvent.umountCmd mp.mountPath, MEvent.losetupDetach mp.loopDevice,
                        MEvent.removeMountDir mp.mountPath] ∧
      lookupMount (unmountErofs st imageID).1 imageID = none ∧
      (unmountErofs st imageID).2 = true) := by
  unfold unmountErofs
  rw [hmp]
  dsimp only
  constructor
  · intro hgt
    have hc : 0 < mp.refCount - 1 := by omega
    rw [if_pos hc]
    refine ⟨rfl, ?_, rfl⟩
    simp only
    rw [lookupMount_mapBump st imageID (fun x => { x with refCount := mp.refCount - 1 }) st.events]
    rw [hmp]
    rfl
  · intro heq
    have hc : ¬ (0 < mp.refCount - 1) := by omega
    rw [if_neg hc]
    exact ⟨rfl, lookupMount_filter_none st imageID _, rfl⟩

theorem mountErofsN_closed (md imageID imagePath : Str) (n : Nat) :
    mountErofsN ⟨md, [], []⟩ imageID imagePath (n + 1)
      = ⟨md,
         [(imageID,
           { id := imageID, imagePath := imagePath,
             mountPath := filepathJoin md imageID,
             loopDevice := setupLoopDevice imagePath,
             refCount := ((n + 1 : Nat) : Int) })],
         [MEvent.losetupAttach imagePath,
          MEvent.mountCmd (setupLoopDevice imagePath) (filepathJoin md imageID)]⟩ := by
  induction n with
  | zero => rfl
  | succ k ih =>
    show (mountErofs (mountErofsN ⟨md, [], []⟩ imageID imagePath (k + 1)) imageID imagePath).1 = _
    rw [ih]
    unfold mountErofs lookupMount
    simp only [List.find?_cons, beq_self_eq_true, Option.map_some', List.map_cons, List.map_nil]
    simp

theorem unmountErofsN_run (md imageID imagePath : Str) (evs : List MEvent) (n : Nat)
    (hn : 1 ≤ n) :
    ∀ m : Nat, m ≤ n →
      unmountErofsN
          ⟨md,
           [(imageID,
             { id := imageID, imagePath := imagePath,
               mountPath := filepathJoin md imageID,
               loopDevice := setupLoopDevice imagePath,
               refCount := ((n : Nat) : Int) })],
           evs⟩ imageID m
        = if m < n then
            ⟨md,
             [(imageID,
               { id := imageID, imagePath := imagePath,
                 mountPath := filepathJoin md imageID,
                 loopDevice := setupLoopDevice imagePath,
                 refCount := ((n - m : Nat) : Int) })],
             evs⟩
          else
            ⟨md, [],
             evs ++ [MEvent.umountCmd (filepathJoin md imageID),
                     MEvent.losetupDetach (setupLoopDevice imagePath),
                     MEvent.removeMountDir (filepathJoin md imageID)]⟩ := by
  intro m
  induction m with
  | zero =>
    intro _
    rw [if_pos (by omega)]
    rfl
  | succ j ih =>
    intro hle
    have hjn : j < n := by omega
    show (unmountErofs (unmountErofsN _ imageID j) imageID).1 = _
    rw [ih (by omega), if_pos hjn]
    unfold unmountErofs lookupMount
    simp only [List.find?_cons, beq_self_eq_true, Option.map_some']
    by_cases hlt : j + 1 < n
    · rw [if_pos (show (0 : Int) < ((n - j : Nat) : Int) - 1 by omega), if_pos hlt]
      simp
      omega
    · rw [if_neg (show ¬ (0 : Int) < ((n - j : Nat) : Int) - 1 by omega), if_neg hlt]
      simp

/-- Claim C8: MountErofs on a recorded image bumps its RefCount and
returns the recorded path with no external mount events; Unmount
decrements, performing the umount, loop detach and mount-directory
removal exactly when the count reaches zero; and after n mounts and
m <= n unmounts of one image the record holds RefCount n - m, existing
iff n - m > 0. -/
theorem mount_refcounting :
    (∀ (st : MMState) (imageID imagePath : Str) (mp : MountPoint),
      lookupMount st imageID = some mp →
        (mountErofs st imageID imagePath).2 = mp.mountPath ∧
        (mountErofs st imageID imagePath).1.events = st.events ∧
        lookupMount (mountErofs st imageID imagePath).1 imageID
          = some { mp with refCount := mp.refCount + 1 }) ∧
    (∀ (st : MMState) (imageID : Str) (mp : MountPoint),
      lookupMount st imageID = some mp →
        (1 < mp.refCount →
          (unmountErofs st imageID).1.events = st.events ∧
          lookupMount (unmountErofs st imageID).1 imageID
            = some { mp with refCount := mp.refCount - 1 } ∧
          (unmountErofs st imageID).2 = true) ∧
        (mp.refCount = 1 →
          (unmountErofs st imageID).1.events
            = st.events ++ [MEvent.umountCmd mp.mountPath, MEvent.losetupDetach mp.loopDevice,
                            MEvent.removeMountDir mp.mountPath] ∧
          lookupMount (unmountErofs st imageID).1 imageID = none ∧
          (unmountErofs st imageID).2 = true)) ∧
    (∀ (md imageID imagePath : Str) (n m : Nat), m ≤ n →
      (m < n →
        lookupMount
            (unmountErofsN (mountErofsN ⟨md, [], []⟩ imageID imagePath n) imageID m) imageID
          = some { id := imageID, imagePath := imagePath,
                   mountPath := filepathJoin md imageID,
                   loopDevice := setupLoopDevice imagePath,
                   refCount := ((n - m : Nat) : Int) }) ∧
      (m = n →
        lookupMount
            (unmountErofsN (mountErofsN ⟨md, [], []⟩ imageID imagePath n) imageID m) imageID
          = none)) := by
  refine ⟨mountErofs_recorded, unmountErofs_spec, ?_⟩
  intro md imageID imagePath n m hmn
  constructor
  · intro hlt
    obtain ⟨k, rfl⟩ : ∃ k, n = k + 1 := ⟨n - 1, by omega⟩
    rw [mountErofsN_closed, unmountErofsN_run md imageID imagePath _ (k + 1) (by omega) m hmn,
      if_pos hlt]
    unfold lookupMount
    simp
  · intro heq
    subst heq
    rcases Nat.eq_zero_or_pos m with hz | hp
    · subst hz
      rfl
    · obtain ⟨k, rfl⟩ : ∃ k, m = k + 1 := ⟨m - 1, by omega⟩
      rw [mountErofsN_closed, unmountErofsN_run md imageID imagePath _ (k + 1) (by omega) (k + 1)
        (le_refl _), if_neg (by omega)]
      rfl

/-- Witness for C8 with two mounts and one unmount. -/
theorem mount_refcounting_witness :
    lookupMount
        (unmountErofsN (mountErofsN ⟨['d'], [], []⟩ ['i'] ['p'] 2) ['i'] 1) ['i']
      = some { id := ['i'], imagePath := ['p'],
               mountPath := filepathJoin ['d'] ['i'],
               loopDevice := setupLoopDevice ['p'],
               refCount := 1 } := by
  have h := (mount_refcounting.2.2 ['d'] ['i'] ['p'] 2 1 (by omega)).1 (by omega)
  simpa using h

/-- Claim C9: Remove of a key marked actively mounted succeeds while
changing nothing (deferred no-op); Remove of an unmarked key with a
metadata row reports removal, drops exactly that key from the metadata
rows and snapshot directories, and leaves the mounted marks unchanged;
Mounts marks its key as actively mounted. -/
theorem remove_deferred_or_drops (st : SnapState) (key : Str) :
    (st.activeMounts.contains key = true → removeSnapshot st key = (st, RemoveOutcome.deferred)) ∧
    (st.activeMounts.contains key = false → st.metaRows.contains key = true →
      (removeSnapshot st key).2 = RemoveOutcome.removed ∧
      key ∉ (removeSnapshot st key).1.metaRows ∧
      key ∉ (removeSnapshot st key).1.snapDirs ∧
      (∀ k, k ≠ key → ((k ∈ (removeSnapshot st key).1.metaRows ↔ k ∈ st.metaRows) ∧
                       (k ∈ (removeSnapshot st key).1.snapDirs ↔ k ∈ st.snapDirs))) ∧
      (removeSnapshot st key).1.activeMounts = st.activeMounts) ∧
    ((markMounted st key).activeMounts.contains key = true) := by
  refine ⟨?_, ?_, ?_⟩
  · intro hm
    unfold removeSnapshot
    rw [if_pos hm]
  · intro hm hrow
    unfold removeSnapshot
    rw [if_neg (by rw [hm]; exact Bool.false_ne_true), if_pos hrow]
    refine ⟨rfl, ?_, ?_, ?_, rfl⟩
    · intro hmem
      have := (List.mem_filter.mp hmem).2
      simp at this
    · intro hmem
      have := (List.mem_filter.mp hmem).2
      simp at this
    · intro k hk
      constructor
      · constructor
        · intro hmem
          exact (List.mem_filter.mp hmem).1
        · intro hmem
          exact List.mem_filter.mpr ⟨hmem, by simp [hk]⟩
      · constructor
        · intro hmem
          exact (List.mem_filter.mp hmem).1
        · intro hmem
          exact List.mem_filter.mpr ⟨hmem, by simp [hk]⟩
  · unfold markMounted
    by_cases hc : st.activeMounts.contains key = true
    · rw [if_pos hc]
      exact hc
    · rw [if_neg hc]
      simp

/-- Witness for C9 removing an unmarked key. -/
theorem remove_deferred_or_drops_witness :
    (removeSnapshot ⟨[['x']], [['y']], [['y']]⟩ ['y']).2 = RemoveOutcome.removed ∧
      ¬ (['y'] : Str) ∈ (removeSnapshot ⟨[['x']], [['y']], [['y']]⟩ ['y']).1.metaRows := by
  have h := (remove_deferred_or_drops ⟨[['x']], [['y']], [['y']]⟩ ['y']).2.1 (by decide) (by decide)
  exact ⟨h.1, h.2.1⟩

/-- Claim C1 (code bug): after WriteFile of a one-byte stream on a fresh
store the chunks directory is still empty although the data produced a
chunk and the index holds its digest with refcount 2 — storeChunk never
writes the chunk file, so the chunk-file/refcount invariant fails. -/
theorem writeFile_never_stores_chunk :
    (writeFile ⟨[], ⟨[], []⟩⟩ ['p'] [0]).disk = [] ∧
    chunkData [0] ≠ [] ∧
    (writeFile ⟨[], ⟨[], []⟩⟩ ['p'] [0]).index.chunks.map (fun r => r.refCount) = [2] ∧
    ¬ (∀ r ∈ (writeFile ⟨[], ⟨[], []⟩⟩ ['p'] [0]).index.chunks,
        0 < r.refCount → r.hash ∈ (writeFile ⟨[], ⟨[], []⟩⟩ ['p'] [0]).disk) := by
  decide

/-- Claim C3 (code bug): a chunk indexed for the first time with one
occurrence ends with stored refcount 2, not 1 — the INSERT takes the
schema default ref_count of 1 and the unconditional UPDATE adds 1 per
occurrence, so the stored refcount differs from the occurrence count. -/
theorem indexFile_first_refcount_two :
    getChunkRefCount (indexFile ⟨[], []⟩ ['f'] [⟨['a', 'a'], 1⟩]) ['a', 'a'] = some 2 ∧
    specOccCount (indexFile ⟨[], []⟩ ['f'] [⟨['a', 'a'], 1⟩]).files ['a', 'a'] = 1 ∧
    getChunkRefCount (indexFile ⟨[], []⟩ ['f'] [⟨['a', 'a'], 1⟩]) ['a', 'a']
      ≠ some ((specOccCount (indexFile ⟨[], []⟩ ['f'] [⟨['a', 'a'], 1⟩]).files ['a', 'a'] : Nat) : Int) := by
  decide

/-- Claim C4 (code bug): a second WriteFile with the same path and bytes
leaves the (empty) chunk directory unchanged but bumps the chunk refcount
from 2 to 3, so the repeated put is not a no-op on the index. -/
theorem writeFile_not_idempotent :
    (writeFile (writeFile ⟨[], ⟨[], []⟩⟩ ['p'] [0]) ['p'] [0]).disk
        = (writeFile ⟨[], ⟨[], []⟩⟩ ['p'] [0]).disk ∧
    (writeFile ⟨[], ⟨[], []⟩⟩ ['p'] [0]).index.chunks.map (fun r => r.refCount) = [2] ∧
    (writeFile (writeFile ⟨[], ⟨[], []⟩⟩ ['p'] [0]) ['p'] [0]).index.chunks.map
        (fun r => r.refCount) = [3] ∧
    (writeFile (writeFile ⟨[], ⟨[], []⟩⟩ ['p'] [0]) ['p'] [0]).index
        ≠ (writeFile ⟨[], ⟨[], []⟩⟩ ['p'] [0]).index := by
  decide

/-- Claim C7 (code bug): two ProcessLayer calls with archives of the same
content digest both take the full path — the second is not
short-circuited and extracts again — because no code ever creates the
digest marker that isLayerProcessed checks; the chunk index is untouched
by both calls. -/
theorem processLayer_no_short_circuit :
    (processLayer ⟨[], ⟨[], []⟩, [], [], []⟩ ['a'] [0]).2 = false ∧
    (processLayer (processLayer ⟨[], ⟨[], []⟩, [], [], []⟩ ['a'] [0]).1 ['b'] [0]).2 = false ∧
    (processLayer (processLayer ⟨[], ⟨[], []⟩, [], [], []⟩ ['a'] [0]).1 ['b'] [0]).1.extracted
        = [['a'], ['b']] ∧
    (processLayer (processLayer ⟨[], ⟨[], []⟩, [], [], []⟩ ['a'] [0]).1 ['b'] [0]).1.digestMarkers
        = [] ∧
    (processLayer (processLayer ⟨[], ⟨[], []⟩, [], [], []⟩ ['a'] [0]).1 ['b'] [0]).1.index
        = (processLayer ⟨[], ⟨[], []⟩, [], [], []⟩ ['a'] [0]).1.index := by
  decide
